/-
Verification development for the EDEn spatial-reasoning layer:
the EntityGrid occupancy tracker (EntityGrid.h) and the Pathfinder
(Pathfinder.h).  Only the C++ headers of these components are present in
the repository snapshot; the definitions below therefore embed the data
model and operations from the header documentation and the design
specification, as noted on each definition.
-/
import Mathlib

set_option maxRecDepth 4000

/-- The size of a movement tile in pixels (EntityGrid::MOVEMENT_TILE_SIZE). -/
def movementTileSize : Nat := 32

/-- A pixel (or tile) coordinate pair, mirroring shapes::Point2D. -/
structure Point where
  x : Nat
  y : Nat
deriving DecidableEq, Repr

/-- Modelled from the spec: the per-tile occupancy record (TileState).
The spec gives "an occupant reference (none / obstacle / a specific actor)
and an occupancy kind (free, permanently blocked, occupied by a moving
entity)"; the TileState definition itself is not in the snapshot. -/
inductive TileState where
  | free : TileState
  | obstacle : TileState
  | actor (id : Nat) : TileState
deriving DecidableEq, Repr

/-- Modelled from the spec: the EntityGrid collision map, a 2D array of
TileState of the map's tile dimensions (EntityGrid.h fields
collisionMapWidth, collisionMapHeight, collisionMap). -/
structure Grid where
  collisionMapWidth : Nat
  collisionMapHeight : Nat
  collisionMap : Nat → Nat → TileState

/-- Modelled from the spec: tile (tx, ty) lies inside the tile boundaries of
the pixel rectangle with origin p and pixel size w × h
(EntityGrid::getCollisionMapEdges): the covered tile columns run from
p.x / tileSize to (p.x + w - 1) / tileSize, and likewise for rows. -/
def coveredTile (p : Point) (w h : Nat) (tx ty : Nat) : Prop :=
  p.x / movementTileSize ≤ tx ∧ tx ≤ (p.x + w - 1) / movementTileSize ∧
  p.y / movementTileSize ≤ ty ∧ ty ≤ (p.y + h - 1) / movementTileSize

instance (p : Point) (w h tx ty : Nat) : Decidable (coveredTile p w h tx ty) := by
  unfold coveredTile; infer_instance

/-- Modelled from the spec: the pixel rectangle with origin p and size
w × h lies entirely within the map (EntityGrid::withinMap, applied to the
whole footprint). -/
def withinMap (g : Grid) (p : Point) (w h : Nat) : Prop :=
  (p.x + w - 1) / movementTileSize < g.collisionMapWidth ∧
  (p.y + h - 1) / movementTileSize < g.collisionMapHeight

instance (g : Grid) (p : Point) (w h : Nat) : Decidable (withinMap g p w h) := by
  unfold withinMap; infer_instance

/-- Run a Boolean check over every tile of the collision map. -/
def gridAll (g : Grid) (P : Nat → Nat → Bool) : Bool :=
  (List.range g.collisionMapWidth).all fun tx =>
    (List.range g.collisionMapHeight).all fun ty => P tx ty

/-- Modelled from the spec: EntityGrid::isAreaFree — true iff every tile the
pixel footprint would cover is unoccupied; an out-of-bounds area is never
free. -/
def isAreaFree (g : Grid) (p : Point) (w h : Nat) : Bool :=
  decide (withinMap g p w h) &&
    gridAll g fun tx ty =>
      !(decide (coveredTile p w h tx ty)) || decide (g.collisionMap tx ty = TileState.free)

/-- Modelled from the spec: EntityGrid::canOccupyArea — the area can be set
to the given state iff it is within the map and every covered tile is free
or already holds that same state (so an entity never blocks itself). -/
def canOccupyArea (g : Grid) (p : Point) (w h : Nat) (state : TileState) : Bool :=
  decide (withinMap g p w h) &&
    gridAll g fun tx ty =>
      !(decide (coveredTile p w h tx ty)) ||
        (decide (g.collisionMap tx ty = TileState.free) || decide (g.collisionMap tx ty = state))

/-- Modelled from the spec: EntityGrid::setArea — unconditionally set every
covered tile to the given state. -/
def setArea (g : Grid) (p : Point) (w h : Nat) (state : TileState) : Grid :=
  { g with collisionMap := fun tx ty =>
      if coveredTile p w h tx ty then state else g.collisionMap tx ty }

/-- Modelled from the spec: EntityGrid::occupyArea — all-or-nothing
reservation; when anything blocks the area the grid is returned unmodified. -/
def occupyArea (g : Grid) (p : Point) (w h : Nat) (state : TileState) : Bool × Grid :=
  if canOccupyArea g p w h state then (true, setArea g p w h state) else (false, g)

/-- Modelled from the spec: the two-point EntityGrid::freeArea overload —
within the previous area, every tile that holds the given state and is not
also part of the current area is released. -/
def freeArea (g : Grid) (prev cur : Point) (w h : Nat) (state : TileState) : Grid :=
  { g with collisionMap := fun tx ty =>
      if coveredTile prev w h tx ty ∧ ¬ coveredTile cur w h tx ty ∧
          g.collisionMap tx ty = state then
        TileState.free
      else g.collisionMap tx ty }

/-- Modelled from the spec: an Actor as seen by the EntityGrid — an
identity plus a current pixel footprint (location, width, height). -/
structure Actor where
  id : Nat
  location : Point
  width : Nat
  height : Nat
deriving DecidableEq, Repr

/-- The TileState recorded for tiles occupied by a given actor. -/
def actorState (a : Actor) : TileState := TileState.actor a.id

/-- Modelled from the spec: EntityGrid::addObstacle — checks isAreaFree
first; all-or-nothing. -/
def addObstacle (g : Grid) (p : Point) (w h : Nat) : Bool × Grid :=
  if isAreaFree g p w h then (true, setArea g p w h TileState.obstacle) else (false, g)

/-- Modelled from the spec: EntityGrid::addActor — checks isAreaFree first;
all-or-nothing. -/
def addActor (g : Grid) (a : Actor) : Bool × Grid :=
  if isAreaFree g a.location a.width a.height then
    (true, setArea g a.location a.width a.height (actorState a))
  else (false, g)

/-- Modelled from the spec: EntityGrid::removeActor — releases every tile
currently attributed to the actor; a no-op when it occupies nothing. -/
def removeActor (g : Grid) (a : Actor) : Grid :=
  { g with collisionMap := fun tx ty =>
      if g.collisionMap tx ty = actorState a then TileState.free
      else g.collisionMap tx ty }

/-- Modelled from the spec: EntityGrid::changeActorLocation — if the
destination can be occupied, occupy it and release the actor's former
tiles that are not part of the destination; otherwise leave the grid
unmodified. -/
def changeActorLocation (g : Grid) (a : Actor) (dst : Point) : Bool × Grid :=
  if canOccupyArea g dst a.width a.height (actorState a) then
    (true, freeArea (setArea g dst a.width a.height (actorState a))
             a.location dst a.width a.height (actorState a))
  else (false, g)

/-- Modelled from the spec: EntityGrid::beginMovement — request permission
to move to dst; on success the destination footprint is provisionally
reserved (occupyArea with the actor's state), otherwise nothing changes. -/
def beginMovement (g : Grid) (a : Actor) (dst : Point) : Bool × Grid :=
  occupyArea g dst a.width a.height (actorState a)

/-- Modelled from the spec: EntityGrid::endMovement — the actor completed
the move; release the source tiles that are not part of the destination. -/
def endMovement (g : Grid) (a : Actor) (src dst : Point) : Grid :=
  freeArea g src dst a.width a.height (actorState a)

/-- Modelled from the spec: EntityGrid::abortMovement — the actor stopped
between src and dst at its current location; release the tiles of both the
source and the requested destination that are not under the actor's
current footprint. -/
def abortMovement (g : Grid) (a : Actor) (src dst : Point) : Grid :=
  freeArea (freeArea g src a.location a.width a.height (actorState a))
    dst a.location a.width a.height (actorState a)

theorem gridAll_iff (g : Grid) (P : Nat → Nat → Bool) :
    gridAll g P = true ↔
      ∀ tx, tx < g.collisionMapWidth → ∀ ty, ty < g.collisionMapHeight → P tx ty = true := by
  unfold gridAll
  simp [List.all_eq_true, List.mem_range]

theorem coveredTile_lt (g : Grid) (p : Point) (w h tx ty : Nat)
    (hin : withinMap g p w h) (hcov : coveredTile p w h tx ty) :
    tx < g.collisionMapWidth ∧ ty < g.collisionMapHeight :=
  ⟨lt_of_le_of_lt hcov.2.1 hin.1, lt_of_le_of_lt hcov.2.2.2 hin.2⟩

theorem isAreaFree_iff (g : Grid) (p : Point) (w h : Nat) :
    isAreaFree g p w h = true ↔
      withinMap g p w h ∧
        ∀ tx ty, coveredTile p w h tx ty → g.collisionMap tx ty = TileState.free := by
  unfold isAreaFree
  rw [Bool.and_eq_true, gridAll_iff]
  constructor
  · rintro ⟨hw, hall⟩
    have hwm : withinMap g p w h := of_decide_eq_true hw
    refine ⟨hwm, fun tx ty hcov => ?_⟩
    obtain ⟨hx, hy⟩ := coveredTile_lt g p w h tx ty hwm hcov
    have := hall tx hx ty hy
    rcases Bool.or_eq_true_iff.mp this with hnot | hfree
    · have hdf : decide (coveredTile p w h tx ty) = false := by simpa using hnot
      exact absurd hcov (of_decide_eq_false hdf)
    · exact of_decide_eq_true hfree
  · rintro ⟨hwm, hall⟩
    refine ⟨decide_eq_true hwm, fun tx _ ty _ => ?_⟩
    by_cases hcov : coveredTile p w h tx ty
    · simp [hcov, hall tx ty hcov]
    · simp [hcov]

theorem canOccupyArea_iff (g : Grid) (p : Point) (w h : Nat) (s : TileState) :
    canOccupyArea g p w h s = true ↔
      withinMap g p w h ∧
        ∀ tx ty, coveredTile p w h tx ty →
          g.collisionMap tx ty = TileState.free ∨ g.collisionMap tx ty = s := by
  unfold canOccupyArea
  rw [Bool.and_eq_true, gridAll_iff]
  constructor
  · rintro ⟨hw, hall⟩
    have hwm : withinMap g p w h := of_decide_eq_true hw
    refine ⟨hwm, fun tx ty hcov => ?_⟩
    obtain ⟨hx, hy⟩ := coveredTile_lt g p w h tx ty hwm hcov
    have := hall tx hx ty hy
    rcases Bool.or_eq_true_iff.mp this with hnot | hrest
    · have hdf : decide (coveredTile p w h tx ty) = false := by simpa using hnot
      exact absurd hcov (of_decide_eq_false hdf)
    · rcases Bool.or_eq_true_iff.mp hrest with hfree | hsame
      · exact Or.inl (of_decide_eq_true hfree)
      · exact Or.inr (of_decide_eq_true hsame)
  · rintro ⟨hwm, hall⟩
    refine ⟨decide_eq_true hwm, fun tx _ ty _ => ?_⟩
    by_cases hcov : coveredTile p w h tx ty
    · rcases hall tx ty hcov with hfree | hsame
      · simp [hcov, hfree]
      · simp [hcov, hsame]
    · simp [hcov]

theorem setArea_map (g : Grid) (p : Point) (w h : Nat) (s : TileState) (tx ty : Nat) :
    (setArea g p w h s).collisionMap tx ty =
      if coveredTile p w h tx ty then s else g.collisionMap tx ty := rfl

theorem freeArea_map (g : Grid) (prev cur : Point) (w h : Nat) (s : TileState) (tx ty : Nat) :
    (freeArea g prev cur w h s).collisionMap tx ty =
      if coveredTile prev w h tx ty ∧ ¬ coveredTile cur w h tx ty ∧
          g.collisionMap tx ty = s then
        TileState.free
      else g.collisionMap tx ty := rfl

theorem beginMovement_true_iff (g : Grid) (a : Actor) (dst : Point) :
    (beginMovement g a dst).1 = true ↔
      canOccupyArea g dst a.width a.height (actorState a) = true := by
  unfold beginMovement occupyArea
  by_cases h : canOccupyArea g dst a.width a.height (actorState a) <;> simp [h]

theorem beginMovement_snd_of_true (g : Grid) (a : Actor) (dst : Point)
    (h : canOccupyArea g dst a.width a.height (actorState a) = true) :
    (beginMovement g a dst).2 = setArea g dst a.width a.height (actorState a) := by
  unfold beginMovement occupyArea
  simp [h]

theorem relocate_map_actor (g : Grid) (id : Nat) (src dst : Point) (w h : Nat)
    (hInv : ∀ tx ty, g.collisionMap tx ty = TileState.actor id ↔ coveredTile src w h tx ty)
    (tx ty : Nat) :
    ((freeArea (setArea g dst w h (TileState.actor id)) src dst w h
        (TileState.actor id)).collisionMap tx ty = TileState.actor id ↔
      coveredTile dst w h tx ty) := by
  rw [freeArea_map]
  by_cases hd : coveredTile dst w h tx ty
  · simp [setArea_map, hd]
  · by_cases hs : coveredTile src w h tx ty
    · by_cases ha : g.collisionMap tx ty = TileState.actor id
      · simp [setArea_map, hd, hs, ha]
      · exact absurd ((hInv tx ty).mpr hs) ha
    · simp [setArea_map, hd, hs, hInv tx ty]

theorem relocate_map_frees (g : Grid) (id : Nat) (src dst : Point) (w h : Nat)
    (hInv : ∀ tx ty, g.collisionMap tx ty = TileState.actor id ↔ coveredTile src w h tx ty)
    (tx ty : Nat) (hs : coveredTile src w h tx ty) (hd : ¬ coveredTile dst w h tx ty) :
    (freeArea (setArea g dst w h (TileState.actor id)) src dst w h
        (TileState.actor id)).collisionMap tx ty = TileState.free := by
  rw [freeArea_map]
  simp [setArea_map, hs, hd, (hInv tx ty).mpr hs]

theorem abort_map_actor (g : Grid) (id : Nat) (src dst c : Point) (w h : Nat)
    (hInv : ∀ tx ty, g.collisionMap tx ty = TileState.actor id ↔ coveredTile src w h tx ty)
    (hsub : ∀ tx ty, coveredTile c w h tx ty →
      coveredTile src w h tx ty ∨ coveredTile dst w h tx ty)
    (tx ty : Nat) :
    ((freeArea (freeArea (setArea g dst w h (TileState.actor id)) src c w h
        (TileState.actor id)) dst c w h (TileState.actor id)).collisionMap tx ty =
        TileState.actor id ↔ coveredTile c w h tx ty) := by
  rw [freeArea_map, freeArea_map]
  by_cases hc : coveredTile c w h tx ty
  · rcases hsub tx ty hc with hs | hd
    · by_cases hd : coveredTile dst w h tx ty
      · simp [setArea_map, hc, hd]
      · simp [setArea_map, hc, hd, hs, (hInv tx ty).mpr hs]
    · simp [setArea_map, hc, hd]
  · by_cases hd : coveredTile dst w h tx ty
    · by_cases hs : coveredTile src w h tx ty
      · simp [setArea_map, hc, hd, hs]
      · simp [setArea_map, hc, hd, hs]
    · by_cases hs : coveredTile src w h tx ty
      · simp [setArea_map, hc, hd, hs, (hInv tx ty).mpr hs]
      · simp [setArea_map, hc, hd, hs, hInv tx ty]

theorem isAreaFree_false_of_occupied (g : Grid) (p : Point) (w h tx ty : Nat)
    (hcov : coveredTile p w h tx ty) (hocc : g.collisionMap tx ty ≠ TileState.free) :
    isAreaFree g p w h = false :=
  Bool.eq_false_iff.mpr fun htrue =>
    hocc (((isAreaFree_iff g p w h).mp htrue).2 tx ty hcov)

theorem canOccupyArea_false_of_occupied (g : Grid) (p : Point) (w h tx ty : Nat)
    (s : TileState) (hcov : coveredTile p w h tx ty)
    (hocc : g.collisionMap tx ty ≠ TileState.free) (hother : g.collisionMap tx ty ≠ s) :
    canOccupyArea g p w h s = false :=
  Bool.eq_false_iff.mpr fun htrue => by
    rcases ((canOccupyArea_iff g p w h s).mp htrue).2 tx ty hcov with hf | hs
    · exact hocc hf
    · exact hother hs

/-- Claim C1 (amended): if some tile covered by the rectangular area is
already occupied, then addObstacle and addActor fail and leave the grid
unchanged; beginMovement does so as well provided the occupying entity is
not the moving actor itself (a tile an actor already occupies never blocks
that same actor's movement request). -/
theorem claimC1_atomicity (g : Grid) (a : Actor) (p : Point) (w h tx ty : Nat)
    (hcov : coveredTile p w h tx ty) (hocc : g.collisionMap tx ty ≠ TileState.free)
    (hw : a.width = w) (hh : a.height = h) :
    ((addObstacle g p w h).1 = false ∧ (addObstacle g p w h).2 = g) ∧
    (a.location = p → (addActor g a).1 = false ∧ (addActor g a).2 = g) ∧
    (g.collisionMap tx ty ≠ actorState a →
      (beginMovement g a p).1 = false ∧ (beginMovement g a p).2 = g) := by
  have hfree := isAreaFree_false_of_occupied g p w h tx ty hcov hocc
  refine ⟨?_, ?_, ?_⟩
  · unfold addObstacle
    simp [hfree]
  · intro hloc
    unfold addActor
    rw [hloc, hw, hh]
    simp [hfree]
  · intro hother
    have hcan := canOccupyArea_false_of_occupied g p w h tx ty (actorState a) hcov hocc hother
    unfold beginMovement occupyArea
    rw [hw, hh]
    simp [hcan]

/-- A 2×1 map in which actor 1 occupies tile (0,0). -/
def cexGridC1 : Grid :=
  ⟨2, 1, fun tx ty => if tx = 0 ∧ ty = 0 then TileState.actor 1 else TileState.free⟩

/-- The actor occupying tile (0,0) of cexGridC1, one tile in size. -/
def cexActorC1 : Actor := ⟨1, ⟨0, 0⟩, 32, 32⟩

/-- Counterexample to claim C1 as stated: requesting movement to pixel
origin (16,0) covers tiles (0,0) and (1,0); tile (0,0) is occupied (by the
moving actor itself), yet beginMovement succeeds and modifies the grid. -/
theorem claimC1_counterexample :
    coveredTile ⟨16, 0⟩ 32 32 0 0 ∧
    cexGridC1.collisionMap 0 0 ≠ TileState.free ∧
    (beginMovement cexGridC1 cexActorC1 ⟨16, 0⟩).1 = true ∧
    (beginMovement cexGridC1 cexActorC1 ⟨16, 0⟩).2.collisionMap 1 0 ≠
      cexGridC1.collisionMap 1 0 := by
  refine ⟨by decide, by decide, by decide, by decide⟩

/-- A 1×1 map whose single tile holds an obstacle. -/
def cexGridOcc : Grid := ⟨1, 1, fun _ _ => TileState.obstacle⟩

/-- An actor (not present on cexGridOcc) used to exercise the occupancy
operations. -/
def cexActorOcc : Actor := ⟨2, ⟨0, 0⟩, 32, 32⟩

theorem claimC1_witness :
    ((addObstacle cexGridOcc ⟨0, 0⟩ 32 32).1 = false ∧
      (addObstacle cexGridOcc ⟨0, 0⟩ 32 32).2 = cexGridOcc) ∧
    ((addActor cexGridOcc cexActorOcc).1 = false ∧
      (addActor cexGridOcc cexActorOcc).2 = cexGridOcc) ∧
    ((beginMovement cexGridOcc cexActorOcc ⟨0, 0⟩).1 = false ∧
      (beginMovement cexGridOcc cexActorOcc ⟨0, 0⟩).2 = cexGridOcc) :=
  ⟨(claimC1_atomicity cexGridOcc cexActorOcc ⟨0, 0⟩ 32 32 0 0 (by decide) (by decide)
      rfl rfl).1,
   (claimC1_atomicity cexGridOcc cexActorOcc ⟨0, 0⟩ 32 32 0 0 (by decide) (by decide)
      rfl rfl).2.1 rfl,
   (claimC1_atomicity cexGridOcc cexActorOcc ⟨0, 0⟩ 32 32 0 0 (by decide) (by decide)
      rfl rfl).2.2 (by decide)⟩

/-- Claim C3 (amended): if beginMovement(X, dst) succeeds and
endMovement(X, src, dst) is then called, every tile of the source
footprint that is not also part of the destination footprint is free, and
the tiles occupied by X are exactly the destination footprint.  (Source
tiles shared with the destination footprint remain occupied by X, as the
destination-exactness part requires.) -/
theorem claimC3_movement (g : Grid) (a : Actor) (dst : Point)
    (hInv : ∀ tx ty, g.collisionMap tx ty = actorState a ↔
      coveredTile a.location a.width a.height tx ty)
    (hok : (beginMovement g a dst).1 = true) :
    (∀ tx ty, coveredTile a.location a.width a.height tx ty →
      ¬ coveredTile dst a.width a.height tx ty →
      (endMovement (beginMovement g a dst).2 a a.location dst).collisionMap tx ty =
        TileState.free) ∧
    (∀ tx ty,
      (endMovement (beginMovement g a dst).2 a a.location dst).collisionMap tx ty =
          actorState a ↔ coveredTile dst a.width a.height tx ty) := by
  have hcan := (beginMovement_true_iff g a dst).mp hok
  rw [beginMovement_snd_of_true g a dst hcan]
  unfold endMovement
  constructor
  · intro tx ty hs hd
    exact relocate_map_frees g a.id a.location dst a.width a.height hInv tx ty hs hd
  · intro tx ty
    exact relocate_map_actor g a.id a.location dst a.width a.height hInv tx ty

/-- A 3×1 map in which actor 1 occupies tiles (0,0) and (1,0). -/
def cexGridC3 : Grid :=
  ⟨3, 1, fun tx ty => if (tx = 0 ∨ tx = 1) ∧ ty = 0 then TileState.actor 1
    else TileState.free⟩

/-- A two-tile-wide actor standing at pixel origin (0,0) on cexGridC3. -/
def cexActorC3 : Actor := ⟨1, ⟨0, 0⟩, 64, 32⟩

/-- Counterexample to claim C3 as stated: the actor is 64 pixels wide, so
the source footprint (tiles (0,0),(1,0)) and the destination footprint at
pixel (32,0) (tiles (1,0),(2,0)) overlap on tile (1,0); after a successful
beginMovement followed by endMovement, that source tile is still occupied
by the actor, not free. -/
theorem claimC3_counterexample :
    (beginMovement cexGridC3 cexActorC3 ⟨32, 0⟩).1 = true ∧
    coveredTile ⟨0, 0⟩ 64 32 1 0 ∧
    (endMovement (beginMovement cexGridC3 cexActorC3 ⟨32, 0⟩).2 cexActorC3
        ⟨0, 0⟩ ⟨32, 0⟩).collisionMap 1 0 ≠ TileState.free := by
  refine ⟨by decide, by decide, by decide⟩

/-- A 2×1 map in which actor 1 occupies tile (0,0) only. -/
def cexGridC3w : Grid :=
  ⟨2, 1, fun tx ty => if tx = 0 ∧ ty = 0 then TileState.actor 1 else TileState.free⟩

theorem coveredTile_iff_of_aligned (p : Point) (w h tx ty x y cw ch : Nat)
    (hx : p.x = 32 * x) (hy : p.y = 32 * y) (hw : w = 32 * cw) (hh : h = 32 * ch)
    (hcw : 0 < cw) (hch : 0 < ch) :
    coveredTile p w h tx ty ↔ (x ≤ tx ∧ tx < x + cw ∧ y ≤ ty ∧ ty < y + ch) := by
  unfold coveredTile movementTileSize
  rw [hx, hy, hw, hh]
  constructor <;> intro hc <;> omega

theorem cexGridC3w_inv :
    ∀ tx ty, cexGridC3w.collisionMap tx ty = actorState cexActorC1 ↔
      coveredTile cexActorC1.location cexActorC1.width cexActorC1.height tx ty := by
  intro tx ty
  rw [coveredTile_iff_of_aligned cexActorC1.location cexActorC1.width
    cexActorC1.height tx ty 0 0 1 1 rfl rfl rfl rfl (by norm_num) (by norm_num)]
  by_cases h0 : tx = 0 ∧ ty = 0
  · simp [cexGridC3w, actorState, cexActorC1, h0]
  · simp [cexGridC3w, actorState, cexActorC1, h0]

theorem claimC3_witness :
    ((endMovement (beginMovement cexGridC3w cexActorC1 ⟨32, 0⟩).2 cexActorC1
        ⟨0, 0⟩ ⟨32, 0⟩).collisionMap 0 0 = TileState.free) ∧
    ((endMovement (beginMovement cexGridC3w cexActorC1 ⟨32, 0⟩).2 cexActorC1
        ⟨0, 0⟩ ⟨32, 0⟩).collisionMap 1 0 = actorState cexActorC1) := by
  have h := claimC3_movement cexGridC3w cexActorC1 ⟨32, 0⟩ cexGridC3w_inv (by decide)
  exact ⟨h.1 0 0 (by decide) (by decide), (h.2 1 0).mpr (by decide)⟩

/-- Claim C6: addActor(X, A), when it succeeds, followed by removeActor(X)
restores every tile covered by A to the exact state it held before, and
removeActor is a no-op whenever the actor occupies no tiles. -/
theorem claimC6_roundtrip (g : Grid) (a : Actor) :
    ((addActor g a).1 = true →
      ∀ tx ty, coveredTile a.location a.width a.height tx ty →
        (removeActor (addActor g a).2 a).collisionMap tx ty = g.collisionMap tx ty) ∧
    ((∀ tx ty, g.collisionMap tx ty ≠ actorState a) → removeActor g a = g) := by
  constructor
  · intro hok tx ty hcov
    have hfree : isAreaFree g a.location a.width a.height = true := by
      by_contra hne
      have : isAreaFree g a.location a.width a.height = false :=
        Bool.eq_false_iff.mpr hne
      unfold addActor at hok
      simp [this] at hok
    have hsnd : (addActor g a).2 = setArea g a.location a.width a.height (actorState a) := by
      unfold addActor
      simp [hfree]
    have horig : g.collisionMap tx ty = TileState.free :=
      ((isAreaFree_iff g a.location a.width a.height).mp hfree).2 tx ty hcov
    rw [hsnd]
    unfold removeActor
    simp [setArea_map, hcov, horig]
  · intro hnone
    unfold removeActor
    cases g with
    | mk w h m =>
      simp only [Grid.mk.injEq, true_and]
      funext tx ty
      simp [hnone tx ty]

/-- An empty 1×1 map. -/
def cexGridEmpty : Grid := ⟨1, 1, fun _ _ => TileState.free⟩

theorem claimC6_witness :
    ((removeActor (addActor cexGridEmpty cexActorOcc).2 cexActorOcc).collisionMap 0 0 =
      cexGridEmpty.collisionMap 0 0) ∧
    removeActor cexGridEmpty cexActorOcc = cexGridEmpty :=
  ⟨(claimC6_roundtrip cexGridEmpty cexActorOcc).1 (by decide) 0 0 (by decide),
   (claimC6_roundtrip cexGridEmpty cexActorOcc).2
     (fun tx ty h => TileState.noConfusion h)⟩

/-- Claim C7: isAreaFree is a pure query — in this embedding it is a
function of the grid and returns only a Boolean — and it returns true iff
the footprint lies within the map and every tile it covers is unoccupied;
a footprint extending outside the map bounds is never free. -/
theorem claimC7_isAreaFree (g : Grid) (p : Point) (w h : Nat) :
    (isAreaFree g p w h = true ↔
      withinMap g p w h ∧
        ∀ tx ty, coveredTile p w h tx ty → g.collisionMap tx ty = TileState.free) ∧
    (¬ withinMap g p w h → isAreaFree g p w h = false) := by
  refine ⟨isAreaFree_iff g p w h, fun hout => ?_⟩
  exact Bool.eq_false_iff.mpr fun htrue => hout ((isAreaFree_iff g p w h).mp htrue).1

theorem claimC7_witness :
    isAreaFree cexGridEmpty ⟨32, 0⟩ 32 32 = false :=
  (claimC7_isAreaFree cexGridEmpty ⟨32, 0⟩ 32 32).2 (by decide)

/-- Claim C10: changeActorLocation is an atomic relocation — when the
destination footprint is blocked it fails and leaves the grid unmodified;
otherwise it succeeds and afterwards the actor occupies exactly the
destination footprint. -/
theorem claimC10_changeActorLocation (g : Grid) (a : Actor) (dst : Point)
    (hInv : ∀ tx ty, g.collisionMap tx ty = actorState a ↔
      coveredTile a.location a.width a.height tx ty) :
    (canOccupyArea g dst a.width a.height (actorState a) = false →
      (changeActorLocation g a dst).1 = false ∧ (changeActorLocation g a dst).2 = g) ∧
    (canOccupyArea g dst a.width a.height (actorState a) = true →
      (changeActorLocation g a dst).1 = true ∧
      ∀ tx ty, (changeActorLocation g a dst).2.collisionMap tx ty = actorState a ↔
        coveredTile dst a.width a.height tx ty) := by
  constructor
  · intro hcan
    unfold changeActorLocation
    simp [hcan]
  · intro hcan
    unfold changeActorLocation
    simp only [hcan, if_true]
    refine ⟨by simp, fun tx ty =>
      relocate_map_actor g a.id a.location dst a.width a.height hInv tx ty⟩

theorem claimC10_witness :
    ((changeActorLocation cexGridC3w cexActorC1 ⟨32, 0⟩).1 = true) ∧
    ((changeActorLocation cexGridC3w cexActorC1 ⟨32, 0⟩).2.collisionMap 1 0 =
      actorState cexActorC1) ∧
    ((changeActorLocation cexGridC3w cexActorC1 ⟨0, 32⟩).1 = false ∧
      (changeActorLocation cexGridC3w cexActorC1 ⟨0, 32⟩).2 = cexGridC3w) := by
  have hsucc := (claimC10_changeActorLocation cexGridC3w cexActorC1 ⟨32, 0⟩
    cexGridC3w_inv).2 (by decide)
  have hfail := (claimC10_changeActorLocation cexGridC3w cexActorC1 ⟨0, 32⟩
    cexGridC3w_inv).1 (by decide)
  exact ⟨hsucc.1, (hsucc.2 1 0).mpr (by decide), hfail⟩

/-- The per-actor data that stays fixed across a movement sequence: its
identity and pixel footprint size. -/
structure ActorShape where
  id : Nat
  width : Nat
  height : Nat
deriving DecidableEq, Repr

/-- The evolving state of one actor's movement protocol: the collision grid
and the actor's current pixel location. -/
structure MoveState where
  grid : Grid
  location : Point

/-- How a granted beginMovement is resolved: endMovement at the
destination, or abortMovement at the point where the actor stopped. -/
inductive MoveOutcome where
  | commit : MoveOutcome
  | abort (stopped : Point) : MoveOutcome

/-- One movement-protocol request: a destination and its resolution. -/
structure MoveOp where
  dst : Point
  outcome : MoveOutcome

/-- Modelled from the spec: one round of the two-phase movement protocol —
beginMovement(actor, dst); if permission is denied nothing changes,
otherwise the round finishes with endMovement (actor now at dst) or with
abortMovement (actor stopped at some intermediate point). -/
def stepMove (A : ActorShape) (s : MoveState) (op : MoveOp) : MoveState :=
  if (beginMovement s.grid ⟨A.id, s.location, A.width, A.height⟩ op.dst).1 then
    match op.outcome with
    | MoveOutcome.commit =>
        ⟨endMovement (beginMovement s.grid ⟨A.id, s.location, A.width, A.height⟩ op.dst).2
          ⟨A.id, s.location, A.width, A.height⟩ s.location op.dst, op.dst⟩
    | MoveOutcome.abort c =>
        ⟨abortMovement (beginMovement s.grid ⟨A.id, s.location, A.width, A.height⟩ op.dst).2
          ⟨A.id, c, A.width, A.height⟩ s.location op.dst, c⟩
  else s

/-- Run a whole sequence of movement-protocol rounds. -/
def runMoves (A : ActorShape) (s : MoveState) (ops : List MoveOp) : MoveState :=
  List.foldl (stepMove A) s ops

/-- An aborted round stops the actor somewhere between source and
destination: its stopping footprint only covers tiles of the source or of
the requested destination footprint (EntityGrid.h: the actor "occupies
some area between the source and destination"). -/
def opValid (A : ActorShape) (s : MoveState) (op : MoveOp) : Prop :=
  match op.outcome with
  | MoveOutcome.commit => True
  | MoveOutcome.abort c => ∀ tx ty, coveredTile c A.width A.height tx ty →
      coveredTile s.location A.width A.height tx ty ∨
      coveredTile op.dst A.width A.height tx ty

/-- Validity of a whole protocol sequence, op by op. -/
def opsValid (A : ActorShape) : MoveState → List MoveOp → Prop
  | _, [] => True
  | s, op :: rest => opValid A s op ∧ opsValid A (stepMove A s op) rest

/-- The footprint invariant: the tiles marked as occupied by the actor are
exactly the tiles its current footprint covers. -/
def footprintInv (A : ActorShape) (s : MoveState) : Prop :=
  ∀ tx ty, s.grid.collisionMap tx ty = TileState.actor A.id ↔
    coveredTile s.location A.width A.height tx ty

theorem stepMove_inv (A : ActorShape) (s : MoveState) (op : MoveOp)
    (hInv : footprintInv A s) (hval : opValid A s op) :
    footprintInv A (stepMove A s op) := by
  unfold stepMove
  by_cases hok :
      (beginMovement s.grid ⟨A.id, s.location, A.width, A.height⟩ op.dst).1 = true
  · have hcan := (beginMovement_true_iff s.grid
      ⟨A.id, s.location, A.width, A.height⟩ op.dst).mp hok
    rw [if_pos hok]
    cases hout : op.outcome with
    | commit =>
      intro tx ty
      show (endMovement _ _ _ _).collisionMap tx ty = TileState.actor A.id ↔ _
      rw [beginMovement_snd_of_true _ _ _ hcan]
      exact relocate_map_actor s.grid A.id s.location op.dst A.width A.height hInv tx ty
    | abort c =>
      intro tx ty
      show (abortMovement _ _ _ _).collisionMap tx ty = TileState.actor A.id ↔ _
      rw [beginMovement_snd_of_true _ _ _ hcan]
      unfold abortMovement
      have hsub := hval
      unfold opValid at hsub
      rw [hout] at hsub
      exact abort_map_actor s.grid A.id s.location op.dst c A.width A.height
        hInv hsub tx ty
  · rw [if_neg hok]
    exact hInv

theorem runMoves_inv (A : ActorShape) (ops : List MoveOp) (s : MoveState)
    (hInv : footprintInv A s) (hval : opsValid A s ops) :
    footprintInv A (runMoves A s ops) := by
  induction ops generalizing s with
  | nil => exact hInv
  | cons op rest ih =>
    exact ih (stepMove A s op) (stepMove_inv A s op hInv hval.1) hval.2

/-- Claim C2: after any sequence of protocol rounds in which every granted
beginMovement is resolved by endMovement or abortMovement (and an aborted
actor stops between source and destination), the tiles marked as occupied
by the actor are exactly its current footprint, and every tile names at
most one actor. -/
theorem claimC2_protocol (A : ActorShape) (s : MoveState) (ops : List MoveOp)
    (hInv : footprintInv A s) (hval : opsValid A s ops) :
    footprintInv A (runMoves A s ops) ∧
    (∀ tx ty i j, (runMoves A s ops).grid.collisionMap tx ty = TileState.actor i →
      (runMoves A s ops).grid.collisionMap tx ty = TileState.actor j → i = j) := by
  refine ⟨runMoves_inv A ops s hInv hval, fun tx ty i j h1 h2 => ?_⟩
  rw [h1] at h2
  exact (TileState.actor.injEq i j).mp h2

/-- The shape of cexActorC1 for the protocol model. -/
def cexShapeC2 : ActorShape := ⟨1, 32, 32⟩

/-- Initial protocol state: actor 1 standing on tile (0,0) of the 2×1 map. -/
def cexStateC2 : MoveState := ⟨cexGridC3w, ⟨0, 0⟩⟩

/-- A protocol run: move right one tile and commit, then request a move
back and abort while still standing at the destination footprint. -/
def cexOpsC2 : List MoveOp :=
  [⟨⟨32, 0⟩, MoveOutcome.commit⟩, ⟨⟨0, 0⟩, MoveOutcome.abort ⟨0, 0⟩⟩]

theorem claimC2_witness :
    ((runMoves cexShapeC2 cexStateC2 cexOpsC2).grid.collisionMap 0 0 =
      TileState.actor 1) ∧
    ¬ ((runMoves cexShapeC2 cexStateC2 cexOpsC2).grid.collisionMap 1 0 =
      TileState.actor 1) := by
  have h := claimC2_protocol cexShapeC2 cexStateC2 cexOpsC2
    (by exact cexGridC3w_inv)
    (by exact ⟨trivial, fun tx ty hc => Or.inr hc, trivial⟩)
  refine ⟨(h.1 0 0).mpr (by decide), fun hbad => ?_⟩
  have hcov := (h.1 1 0).mp hbad
  revert hcov
  decide

/-- Modelled from the spec: an exact movement cost of the form i + r·√2 —
every path cost is a sum of orthogonal steps (cost 1) and diagonal steps
(cost ROOT_2), which the C++ stores in floats; the pair (i, r) embeds it
exactly. -/
structure Cost where
  i : Nat
  r : Nat
deriving DecidableEq, Repr

/-- Decidable comparison of exact costs: i + r·√2 ≤ j + s·√2, decided by
comparing squares of the rational and irrational differences. -/
def cle (a b : Cost) : Bool :=
  if a.i ≤ b.i then
    if a.r ≤ b.r then true
    else decide (2 * (a.r - b.r) ^ 2 ≤ (b.i - a.i) ^ 2)
  else
    if b.r ≤ a.r then false
    else decide ((a.i - b.i) ^ 2 ≤ 2 * (b.r - a.r) ^ 2)

theorem sqrt2_le_iff_sq (x y : ℝ) (hx : 0 ≤ x) (hy : 0 ≤ y) :
    x * Real.sqrt 2 ≤ y ↔ 2 * x ^ 2 ≤ y ^ 2 := by
  have h2 : Real.sqrt 2 ^ 2 = 2 := Real.sq_sqrt (by norm_num)
  have hs : (0 : ℝ) ≤ Real.sqrt 2 := Real.sqrt_nonneg 2
  constructor
  · intro h
    have := mul_self_le_mul_self (mul_nonneg hx hs) h
    nlinarith [this]
  · intro h
    by_contra hlt
    push_neg at hlt
    have := mul_self_lt_mul_self hy hlt
    nlinarith [this]

theorem le_sqrt2_iff_sq (x y : ℝ) (hx : 0 ≤ x) (hy : 0 ≤ y) :
    x ≤ y * Real.sqrt 2 ↔ x ^ 2 ≤ 2 * y ^ 2 := by
  have h2 : Real.sqrt 2 ^ 2 = 2 := Real.sq_sqrt (by norm_num)
  have hs : (0 : ℝ) ≤ Real.sqrt 2 := Real.sqrt_nonneg 2
  constructor
  · intro h
    have := mul_self_le_mul_self hx h
    nlinarith [this]
  · intro h
    by_contra hlt
    push_neg at hlt
    have := mul_self_lt_mul_self (mul_nonneg hy hs) hlt
    nlinarith [this]

/-- Correctness of the decidable cost order against the real value
i + r·√2 that the program's float arithmetic approximates. -/
theorem cle_iff (a b : Cost) :
    cle a b = true ↔
      (a.i : ℝ) + (a.r : ℝ) * Real.sqrt 2 ≤ (b.i : ℝ) + (b.r : ℝ) * Real.sqrt 2 := by
  have hs : (0 : ℝ) ≤ Real.sqrt 2 := Real.sqrt_nonneg 2
  unfold cle
  split_ifs with h1 h2 h3
  · simp only [true_iff]
    have hi : (a.i : ℝ) ≤ (b.i : ℝ) := Nat.cast_le.mpr h1
    have hr : (a.r : ℝ) ≤ (b.r : ℝ) := Nat.cast_le.mpr h2
    have := mul_le_mul_of_nonneg_right hr hs
    linarith
  · have hbr : b.r ≤ a.r := le_of_not_le h2
    rw [decide_eq_true_iff]
    have hsub : ((a.r - b.r : Nat) : ℝ) = (a.r : ℝ) - (b.r : ℝ) := by
      push_cast [Nat.cast_sub hbr]
      ring
    have hsubi : ((b.i - a.i : Nat) : ℝ) = (b.i : ℝ) - (a.i : ℝ) := by
      push_cast [Nat.cast_sub h1]
      ring
    have hkey := sqrt2_le_iff_sq ((a.r : ℝ) - (b.r : ℝ)) ((b.i : ℝ) - (a.i : ℝ))
      (by have hc : (b.r : ℝ) ≤ (a.r : ℝ) := Nat.cast_le.mpr hbr; linarith)
      (by have hc : (a.i : ℝ) ≤ (b.i : ℝ) := Nat.cast_le.mpr h1; linarith)
    constructor
    · intro hnat
      have hr : ((2 * (a.r - b.r) ^ 2 : Nat) : ℝ) ≤ (((b.i - a.i) ^ 2 : Nat) : ℝ) :=
        Nat.cast_le.mpr hnat
      push_cast [Nat.cast_sub hbr, Nat.cast_sub h1] at hr
      have h3 := hkey.mpr (by nlinarith [hr])
      nlinarith [h3]
    · intro hre
      have h3 : ((a.r : ℝ) - (b.r : ℝ)) * Real.sqrt 2 ≤ (b.i : ℝ) - (a.i : ℝ) := by
        nlinarith [hre]
      have h4 := hkey.mp h3
      have : ((2 * (a.r - b.r) ^ 2 : Nat) : ℝ) ≤ (((b.i - a.i) ^ 2 : Nat) : ℝ) := by
        push_cast [Nat.cast_sub hbr, Nat.cast_sub h1]
        nlinarith [h4]
      exact_mod_cast this
  · simp only [Bool.false_eq_true, false_iff, not_le]
    have hbi : (b.i : ℝ) < (a.i : ℝ) := by
      exact_mod_cast Nat.lt_of_not_le h1
    have hr : (b.r : ℝ) ≤ (a.r : ℝ) := Nat.cast_le.mpr h3
    have := mul_le_mul_of_nonneg_right hr hs
    linarith
  · have hbi : b.i ≤ a.i := le_of_not_le h1
    have har : a.r ≤ b.r := le_of_not_le h3
    rw [decide_eq_true_iff]
    have hkey := le_sqrt2_iff_sq ((a.i : ℝ) - (b.i : ℝ)) ((b.r : ℝ) - (a.r : ℝ))
      (by have hc : (b.i : ℝ) ≤ (a.i : ℝ) := Nat.cast_le.mpr hbi; linarith)
      (by have hc : (a.r : ℝ) ≤ (b.r : ℝ) := Nat.cast_le.mpr har; linarith)
    constructor
    · intro hnat
      have hr : (((a.i - b.i) ^ 2 : Nat) : ℝ) ≤ ((2 * (b.r - a.r) ^ 2 : Nat) : ℝ) :=
        Nat.cast_le.mpr hnat
      push_cast [Nat.cast_sub hbi, Nat.cast_sub har] at hr
      have h4 := hkey.mpr (by nlinarith [hr])
      nlinarith [h4]
    · intro hre
      have h3 : (a.i : ℝ) - (b.i : ℝ) ≤ ((b.r : ℝ) - (a.r : ℝ)) * Real.sqrt 2 := by
        nlinarith [hre]
      have h4 := hkey.mp h3
      have : (((a.i - b.i) ^ 2 : Nat) : ℝ) ≤ ((2 * (b.r - a.r) ^ 2 : Nat) : ℝ) := by
        push_cast [Nat.cast_sub hbi, Nat.cast_sub har]
        nlinarith [h4]
      exact_mod_cast this

theorem cle_refl (a : Cost) : cle a a = true := (cle_iff a a).mpr le_rfl

theorem cle_trans {a b c : Cost} (h1 : cle a b = true) (h2 : cle b c = true) :
    cle a c = true :=
  (cle_iff a c).mpr (le_trans ((cle_iff a b).mp h1) ((cle_iff b c).mp h2))

theorem cle_total (a b : Cost) : cle a b = true ∨ cle b a = true := by
  rcases le_total ((a.i : ℝ) + (a.r : ℝ) * Real.sqrt 2)
      ((b.i : ℝ) + (b.r : ℝ) * Real.sqrt 2) with h | h
  · exact Or.inl ((cle_iff a b).mpr h)
  · exact Or.inr ((cle_iff b a).mpr h)

theorem cle_add_mono {a b c d : Cost} (h1 : cle a c = true) (h2 : cle b d = true) :
    cle ⟨a.i + b.i, a.r + b.r⟩ ⟨c.i + d.i, c.r + d.r⟩ = true := by
  rw [cle_iff] at h1 h2 ⊢
  push_cast
  linear_combination h1 + h2

/-- Order on optional costs, with none = the C++ INFINITY sentinel as top. -/
def cleI : Option Cost → Option Cost → Bool
  | _, none => true
  | none, some _ => false
  | some a, some b => cle a b

/-- Addition on optional costs; INFINITY absorbs. -/
def addI : Option Cost → Option Cost → Option Cost
  | some a, some b => some ⟨a.i + b.i, a.r + b.r⟩
  | _, _ => none

/-- Minimum of two optional costs under cleI. -/
def minI (a b : Option Cost) : Option Cost := if cleI a b then a else b

theorem cleI_refl (a : Option Cost) : cleI a a = true := by
  cases a <;> simp [cleI, cle_refl]

theorem cleI_none_right (a : Option Cost) : cleI a none = true := by
  cases a <;> simp [cleI]

theorem cleI_trans {a b c : Option Cost} (h1 : cleI a b = true) (h2 : cleI b c = true) :
    cleI a c = true := by
  cases c with
  | none => exact cleI_none_right a
  | some cv =>
    cases b with
    | none => simp [cleI] at h2
    | some bv =>
      cases a with
      | none => simp [cleI] at h1
      | some av =>
        simp only [cleI] at h1 h2 ⊢
        exact cle_trans h1 h2

theorem cleI_total (a b : Option Cost) : cleI a b = true ∨ cleI b a = true := by
  cases a with
  | none => cases b <;> simp [cleI]
  | some av =>
    cases b with
    | none => simp [cleI]
    | some bv => exact cle_total av bv

theorem cleI_none_left {b : Option Cost} (h : cleI none b = true) : b = none := by
  cases b with
  | none => rfl
  | some bv => simp [cleI] at h

theorem cleI_add_mono {a b a' b' : Option Cost}
    (h1 : cleI a a' = true) (h2 : cleI b b' = true) :
    cleI (addI a b) (addI a' b') = true := by
  cases a' with
  | none => cases a <;> cases b <;> cases b' <;> simp [cleI, addI]
  | some av' =>
    cases b' with
    | none => cases a <;> cases b <;> simp [cleI, addI]
    | some bv' =>
      cases a with
      | none => simp [cleI] at h1
      | some av =>
        cases b with
        | none => simp [cleI] at h2
        | some bv =>
          simp only [cleI, addI] at h1 h2 ⊢
          exact cle_add_mono h1 h2

theorem minI_le_left (a b : Option Cost) : cleI (minI a b) a = true := by
  unfold minI
  split_ifs with h
  · exact cleI_refl a
  · rcases cleI_total a b with h1 | h1
    · exact absurd h1 h
    · exact h1

theorem minI_le_right (a b : Option Cost) : cleI (minI a b) b = true := by
  unfold minI
  split_ifs with h
  · exact h
  · exact cleI_refl b

theorem le_minI {c a b : Option Cost} (h1 : cleI c a = true) (h2 : cleI c b = true) :
    cleI c (minI a b) = true := by
  unfold minI
  split_ifs <;> assumption

theorem minI_mono {a b a' b' : Option Cost}
    (h1 : cleI a a' = true) (h2 : cleI b b' = true) :
    cleI (minI a b) (minI a' b') = true :=
  le_minI (cleI_trans (minI_le_left a b) h1) (cleI_trans (minI_le_right a b) h2)

theorem minI_eq_or (a b : Option Cost) : minI a b = a ∨ minI a b = b := by
  unfold minI
  split_ifs <;> simp

theorem foldl_minI_mem (l : List (Option Cost)) (acc : Option Cost) :
    List.foldl minI acc l = acc ∨ List.foldl minI acc l ∈ l := by
  induction l generalizing acc with
  | nil => simp
  | cons x xs ih =>
    simp only [List.foldl_cons]
    rcases ih (minI acc x) with h | h
    · rcases minI_eq_or acc x with h2 | h2
      · exact Or.inl (h.trans h2)
      · exact Or.inr (by rw [h, h2]; exact List.mem_cons_self x xs)
    · exact Or.inr (List.mem_cons_of_mem x h)

theorem foldl_minI_none (l : List (Option Cost)) (hl : ∀ x ∈ l, x = none) :
    List.foldl minI none l = none := by
  rcases foldl_minI_mem l none with h | h
  · exact h
  · exact hl _ h

theorem foldl_minI_mono_map (l : List Nat) (f g : Nat → Option Cost)
    (acc acc' : Option Cost) (hacc : cleI acc acc' = true)
    (hf : ∀ u ∈ l, cleI (f u) (g u) = true) :
    cleI (List.foldl minI acc (l.map f)) (List.foldl minI acc' (l.map g)) = true := by
  induction l generalizing acc acc' with
  | nil => exact hacc
  | cons x xs ih =>
    simp only [List.map_cons, List.foldl_cons]
    exact ih (minI acc (f x)) (minI acc' (g x))
      (minI_mono hacc (hf x (List.mem_cons_self x xs)))
      (fun u hu => hf u (List.mem_cons_of_mem x hu))

/-- The number of tiles of the collision map (Pathfinder's tileNum range). -/
def tileCount (g : Grid) : Nat := g.collisionMapWidth * g.collisionMapHeight

/-- Pathfinder::tileNumToPixels: tile numbers count left to right, then top
to bottom. -/
def tileNumToPixels (g : Grid) (t : Nat) : Point :=
  ⟨(t % g.collisionMapWidth) * movementTileSize,
   (t / g.collisionMapWidth) * movementTileSize⟩

/-- Pathfinder::pixelsToTileNum. -/
def pixelsToTileNum (g : Grid) (p : Point) : Nat :=
  (p.y / movementTileSize) * g.collisionMapWidth + p.x / movementTileSize

/-- Modelled from the spec: the cost of one step between tiles t and u of a
gw-wide grid — 1 for orthogonal neighbours, √2 for diagonal neighbours,
INFINITY (none) when either endpoint is blocked, when the tiles are not
adjacent, or when a diagonal step would cut a corner through two
orthogonally-blocked neighbours. -/
def edgeCost (gw : Nat) (blocked : Nat → Bool) (t u : Nat) : Option Cost :=
  let tx := t % gw
  let ty := t / gw
  let ux := u % gw
  let uy := u / gw
  let dx := max tx ux - min tx ux
  let dy := max ty uy - min ty uy
  if blocked t || blocked u then none
  else if dx + dy = 1 then some ⟨1, 0⟩
  else if dx = 1 ∧ dy = 1 then
    if blocked (ty * gw + ux) && blocked (uy * gw + tx) then none
    else some ⟨0, 1⟩
  else none

/-- The level-0 distance vector: 0 at the source tile, INFINITY elsewhere. -/
def viInit (n src : Nat) : List (Option Cost) :=
  (List.range n).map fun v => if v = src then some ⟨0, 0⟩ else none

/-- One Bellman relaxation round over all n tiles. -/
def viRelax (W : Nat → Nat → Option Cost) (n : Nat) (prev : List (Option Cost)) :
    List (Option Cost) :=
  (List.range n).map fun v =>
    minI (prev.getD v none)
      (List.foldl minI none ((List.range n).map fun u => addI (prev.getD u none) (W u v)))

/-- k rounds of Bellman relaxation from the source tile. -/
def viIter (W : Nat → Nat → Option Cost) (n src : Nat) : Nat → List (Option Cost)
  | 0 => viInit n src
  | k + 1 => viRelax W n (viIter W n src k)

theorem getD_map_range (n v : Nat) (f : Nat → Option Cost) :
    (((List.range n).map f).getD v none) = if v < n then f v else none := by
  by_cases h : v < n
  · rw [if_pos h]
    rw [List.getD_eq_getElem?_getD]
    simp [List.getElem?_map, List.getElem?_range, h]
  · rw [if_neg h]
    rw [List.getD_eq_getElem?_getD]
    rw [List.getElem?_eq_none]
    · rfl
    · simp [Nat.le_of_not_lt h]

theorem viInit_getD (n src v : Nat) :
    (viInit n src).getD v none =
      if v < n then (if v = src then some ⟨0, 0⟩ else none) else none :=
  getD_map_range n v _

theorem viIter_succ_getD (W : Nat → Nat → Option Cost) (n src k v : Nat) :
    (viIter W n src (k + 1)).getD v none =
      if v < n then
        minI ((viIter W n src k).getD v none)
          (List.foldl minI none
            ((List.range n).map fun u => addI ((viIter W n src k).getD u none) (W u v)))
      else none := by
  show (viRelax W n (viIter W n src k)).getD v none = _
  exact getD_map_range n v _

/-- If every edge out of the source-side tile dst is absent, no other tile
ever becomes reachable in the iteration. -/
theorem viIter_isolated (W : Nat → Nat → Option Cost) (n src : Nat)
    (hout : ∀ v, W src v = none) :
    ∀ k v, v ≠ src → (viIter W n src k).getD v none = none := by
  intro k
  induction k with
  | zero =>
    intro v hv
    rw [show viIter W n src 0 = viInit n src from rfl, viInit_getD]
    simp [hv]
  | succ k ih =>
    intro v hv
    rw [viIter_succ_getD]
    by_cases hvn : v < n
    · rw [if_pos hvn, ih v hv]
      have hfold : List.foldl minI none
          ((List.range n).map fun u => addI ((viIter W n src k).getD u none) (W u v)) =
            none := by
        apply foldl_minI_none
        intro x hx
        rcases List.mem_map.mp hx with ⟨u, _, rfl⟩
        by_cases hu : u = src
        · rw [hu, hout v]
          cases (viIter W n src k).getD src none <;> rfl
        · rw [ih u hu]
          rfl
      rw [hfold]
      rfl
    · rw [if_neg hvn]

/-- Pointwise monotonicity of the iteration in the edge weights. -/
theorem viIter_mono (W W' : Nat → Nat → Option Cost) (n src : Nat)
    (hW : ∀ u v, cleI (W u v) (W' u v) = true) :
    ∀ k v, cleI ((viIter W n src k).getD v none) ((viIter W' n src k).getD v none) = true := by
  intro k
  induction k with
  | zero =>
    intro v
    exact cleI_refl _
  | succ k ih =>
    intro v
    rw [viIter_succ_getD, viIter_succ_getD]
    by_cases hvn : v < n
    · rw [if_pos hvn, if_pos hvn]
      refine minI_mono (ih v) ?_
      exact foldl_minI_mono_map (List.range n) _ _ none none (cleI_refl none)
        (fun u _ => cleI_add_mono (ih u) (hW u v))
    · rw [if_neg hvn, if_neg hvn]
      exact cleI_refl none

/-- The two iterations agree when the weights agree on all tile pairs
below n. -/
theorem viIter_congr (W W' : Nat → Nat → Option Cost) (n src : Nat)
    (hW : ∀ u v, u < n → v < n → W u v = W' u v) :
    ∀ k, viIter W n src k = viIter W' n src k := by
  intro k
  induction k with
  | zero => rfl
  | succ k ih =>
    show viRelax W n (viIter W n src k) = viRelax W' n (viIter W' n src k)
    unfold viRelax
    rw [ih]
    apply List.map_congr_left
    intro v hv
    congr 1
    apply congrArg
    apply List.map_congr_left
    intro u hu
    rw [hW u v (List.mem_range.mp hu) (List.mem_range.mp hv)]

/-- Tiles that are permanently blocked: map-load obstacles only — the spec
excludes entities from the Roy-Floyd-Warshall precomputation. -/
def staticBlocked (g : Grid) (t : Nat) : Bool :=
  decide (g.collisionMap (t % g.collisionMapWidth) (t / g.collisionMapWidth) =
    TileState.obstacle)

/-- Modelled from the spec: during the dynamic search a candidate tile is
only admitted if the whole w × h footprint anchored there is unobstructed
per the live grid (Pathfinder::findAStarPath / evaluateAdjacentNodes). -/
def dynBlocked (g : Grid) (w h : Nat) (t : Nat) : Bool :=
  !(isAreaFree g (tileNumToPixels g t) w h)

/-- Static edge weights over permanent obstacles only. -/
def staticWeight (g : Grid) : Nat → Nat → Option Cost :=
  edgeCost g.collisionMapWidth (staticBlocked g)

/-- Live edge weights for a moving entity of pixel size w × h. -/
def dynWeight (g : Grid) (w h : Nat) : Nat → Nat → Option Cost :=
  edgeCost g.collisionMapWidth (dynBlocked g w h)

/-- The converged distance-to-dst table: n relaxation rounds from dst over
the reversed edges, so entry u holds the cost from u to dst. -/
def distTable (W : Nat → Nat → Option Cost) (n dst : Nat) : List (Option Cost) :=
  viIter (fun u v => W v u) n dst n

/-- Modelled from the spec: Pathfinder::initRoyFloydWarshallMatrices fills
distanceMatrix[i][j] with the shortest static cost from tile i to tile j
(INFINITY sentinel when unreachable); Pathfinder.cpp being absent, the
matrix is realized by Bellman value iteration, which computes the same
shortest-cost values the spec assigns to the matrix. -/
def distanceMatrix (g : Grid) (i j : Nat) : Option Cost :=
  (distTable (staticWeight g) (tileCount g) j).getD i none

/-- Extract a least-cost path from c to the table's destination by
descending through the iteration levels: either the value at c already
holds at the previous level, or some neighbour u accounts for it. -/
def extractB (W : Nat → Nat → Option Cost) (n dst : Nat) : Nat → Nat → List Nat
  | 0, c => [c]
  | k + 1, c =>
    if (viIter (fun u v => W v u) n dst k).getD c none =
        (viIter (fun u v => W v u) n dst (k + 1)).getD c none then
      extractB W n dst k c
    else
      match (List.range n).find? (fun u =>
          decide (addI ((viIter (fun u v => W v u) n dst k).getD u none) (W c u) =
            (viIter (fun u v => W v u) n dst (k + 1)).getD c none)) with
      | some u => c :: extractB W n dst k u
      | none => []

/-- The exact cost of a tile path: the sum of its step costs, INFINITY if
any step is not an edge. -/
def pathCost (W : Nat → Nat → Option Cost) : List Nat → Option Cost
  | [] => some ⟨0, 0⟩
  | [_] => some ⟨0, 0⟩
  | a :: b :: rest => addI (W a b) (pathCost W (b :: rest))

/-- One step of the successor-matrix walk: the first neighbour u whose edge
cost plus remaining distance accounts for the distance at cur
(Pathfinder::successorMatrix[cur][dst]). -/
def successorStep (W : Nat → Nat → Option Cost) (n : Nat)
    (dt : List (Option Cost)) (cur : Nat) : Option Nat :=
  (List.range n).find? fun u => decide (addI (dt.getD u none) (W cur u) = dt.getD cur none)

/-- The successor-matrix walk from cur towards dst. -/
def rfwWalk (W : Nat → Nat → Option Cost) (n : Nat) (dt : List (Option Cost))
    (dst : Nat) : Nat → Nat → List Nat
  | 0, _ => []
  | fuel + 1, cur =>
    if cur = dst then []
    else
      match successorStep W n dt cur with
      | some u => u :: rfwWalk W n dt dst fuel u
      | none => []

/-- Modelled from the spec: Pathfinder::findRFWPath — repeatedly look up
the successor of (current, destination) until the destination is reached
or no successor exists; the empty path signals "no path" or "same tile". -/
def findRFWPathT (g : Grid) (srcT dstT : Nat) : List Nat :=
  if srcT = dstT then []
  else
    if (distTable (staticWeight g) (tileCount g) dstT).getD srcT none = none then []
    else
      srcT :: rfwWalk (staticWeight g) (tileCount g)
        (distTable (staticWeight g) (tileCount g) dstT) dstT (tileCount g) srcT

/-- Modelled from the spec: EntityGrid::findBestPath delegates to
Pathfinder::findBestPath, which converts between pixels and tile numbers
around the matrix walk. -/
def findBestPath (g : Grid) (src dst : Point) : List Point :=
  (findRFWPathT g (pixelsToTileNum g src) (pixelsToTileNum g dst)).map (tileNumToPixels g)

/-- Modelled from the spec: Pathfinder::findAStarPath — the dynamic search
returns a least-cost path over the live grid (empty when the destination
is unreachable or equal to the source); Pathfinder.cpp being absent, the
optimal path the A* search must return is extracted from the converged
Bellman table. -/
def findAStarPathT (g : Grid) (srcT dstT w h : Nat) : List Nat :=
  if srcT = dstT then []
  else
    if (distTable (dynWeight g w h) (tileCount g) dstT).getD srcT none = none then []
    else extractB (dynWeight g w h) (tileCount g) dstT (tileCount g) srcT

/-- Modelled from the spec: EntityGrid::findReroutedPath — delegates to the
dynamic search with the moving entity's pixel footprint. -/
def findReroutedPath (g : Grid) (src dst : Point) (w h : Nat) : List Point :=
  (findAStarPathT g (pixelsToTileNum g src) (pixelsToTileNum g dst) w h).map
    (tileNumToPixels g)

/-- Claim C9: findReroutedPath is a deterministic function of the observable
grid state and the query inputs — two grids that agree tile-for-tile (and in
dimensions) yield identical output paths for identical queries. -/
theorem claimC9_determinism (g g' : Grid)
    (hw : g.collisionMapWidth = g'.collisionMapWidth)
    (hh : g.collisionMapHeight = g'.collisionMapHeight)
    (hm : ∀ tx ty, g.collisionMap tx ty = g'.collisionMap tx ty)
    (src dst : Point) (w h : Nat) :
    findReroutedPath g src dst w h = findReroutedPath g' src dst w h := by
  have hg : g = g' := by
    cases g with
    | mk gw gh gm =>
      cases g' with
      | mk gw' gh' gm' =>
        simp only [Grid.mk.injEq]
        exact ⟨hw, hh, funext fun tx => funext fun ty => hm tx ty⟩
  rw [hg]

theorem claimC9_witness :
    findReroutedPath cexGridEmpty ⟨0, 0⟩ ⟨0, 0⟩ 32 32 =
      findReroutedPath cexGridEmpty ⟨0, 0⟩ ⟨0, 0⟩ 32 32 :=
  claimC9_determinism cexGridEmpty cexGridEmpty rfl rfl (fun _ _ => rfl) ⟨0, 0⟩ ⟨0, 0⟩ 32 32

theorem edgeCost_none_right (gw : Nat) (blocked : Nat → Bool) (v t : Nat)
    (hb : blocked t = true) : edgeCost gw blocked v t = none := by
  unfold edgeCost
  simp [hb]

theorem self_coveredTile (a b w h : Nat) (hw : 0 < w) (hh : 0 < h) :
    coveredTile ⟨a * movementTileSize, b * movementTileSize⟩ w h a b := by
  unfold coveredTile movementTileSize
  dsimp only
  omega

theorem dynBlocked_of_staticBlocked (g : Grid) (w h t : Nat) (hw : 0 < w) (hh : 0 < h)
    (hb : staticBlocked g t = true) : dynBlocked g w h t = true := by
  have hobs : g.collisionMap (t % g.collisionMapWidth) (t / g.collisionMapWidth) =
      TileState.obstacle := of_decide_eq_true hb
  have hfree : isAreaFree g (tileNumToPixels g t) w h = false := by
    apply isAreaFree_false_of_occupied g (tileNumToPixels g t) w h
      (t % g.collisionMapWidth) (t / g.collisionMapWidth)
    · exact self_coveredTile (t % g.collisionMapWidth) (t / g.collisionMapWidth) w h hw hh
    · rw [hobs]
      intro hcontra
      cases hcontra
  unfold dynBlocked
  rw [hfree]
  rfl

theorem edgeCost_mono (gw : Nat) (b1 b2 : Nat → Bool)
    (hb : ∀ t, b1 t = true → b2 t = true) (t u : Nat) :
    cleI (edgeCost gw b1 t u) (edgeCost gw b2 t u) = true := by
  unfold edgeCost
  by_cases hb2 : (b2 t || b2 u) = true
  · rw [if_pos hb2]
    exact cleI_none_right _
  · have hb2t : b2 t = false := by
      cases hx : b2 t
      · rfl
      · exact absurd (by rw [hx]; rfl) hb2
    have hb2u : b2 u = false := by
      cases hx : b2 u
      · rfl
      · exact absurd (by rw [hx, Bool.or_true]) hb2
    have hb1t : b1 t = false := by
      cases hx : b1 t
      · rfl
      · rw [hb t hx] at hb2t
        cases hb2t
    have hb1u : b1 u = false := by
      cases hx : b1 u
      · rfl
      · rw [hb u hx] at hb2u
        cases hb2u
    have hb1 : ¬ ((b1 t || b1 u) = true) := by
      rw [hb1t, hb1u]
      simp
    rw [if_neg hb2, if_neg hb1]
    split_ifs with hadj hdiag hc1 hc2 hc2
    · exact cleI_refl _
    · exact cleI_refl _
    · rcases Bool.and_eq_true_iff.mp hc1 with ⟨hs1, hs2⟩
      exact absurd (by rw [hb _ hs1, hb _ hs2]; rfl) hc2
    · exact cleI_none_right _
    · exact cleI_refl _
    · exact cleI_refl _

theorem pixel_roundtrip (g : Grid) (t : Nat) :
    pixelsToTileNum g (tileNumToPixels g t) = t := by
  unfold pixelsToTileNum tileNumToPixels movementTileSize
  dsimp only
  have h1 : (t % g.collisionMapWidth) * 32 / 32 = t % g.collisionMapWidth := by omega
  have h2 : (t / g.collisionMapWidth) * 32 / 32 = t / g.collisionMapWidth := by omega
  rw [h1, h2, Nat.mul_comm]
  exact Nat.div_add_mod t g.collisionMapWidth

/-- Claim C5: when the destination tile is permanently blocked, or is
unreachable from the source over the static grid (the distance matrix
holds the INFINITY sentinel), both the static matrix walk and the dynamic
search — for any entity footprint — return the empty path, at tile level
and through the pixel-facing EntityGrid operations. -/
theorem claimC5_unreachable (g : Grid) (srcT dstT w h : Nat)
    (hw : 0 < w) (hh : 0 < h)
    (hblock : staticBlocked g dstT = true ∨ distanceMatrix g srcT dstT = none) :
    findRFWPathT g srcT dstT = [] ∧
    findAStarPathT g srcT dstT w h = [] ∧
    findBestPath g (tileNumToPixels g srcT) (tileNumToPixels g dstT) = [] ∧
    findReroutedPath g (tileNumToPixels g srcT) (tileNumToPixels g dstT) w h = [] := by
  have hbest : findRFWPathT g srcT dstT = [] ∧ findAStarPathT g srcT dstT w h = [] := by
    by_cases heq : srcT = dstT
    · constructor
      · unfold findRFWPathT
        rw [if_pos heq]
      · unfold findAStarPathT
        rw [if_pos heq]
    · have hdist : distanceMatrix g srcT dstT = none := by
        rcases hblock with hb | hd
        · unfold distanceMatrix distTable
          exact viIter_isolated (fun u v => staticWeight g v u) (tileCount g) dstT
            (fun v => edgeCost_none_right g.collisionMapWidth (staticBlocked g) v dstT hb)
            (tileCount g) srcT heq
        · exact hd
      have hdyn : (distTable (dynWeight g w h) (tileCount g) dstT).getD srcT none = none := by
        have hmono := viIter_mono (fun u v => staticWeight g v u)
          (fun u v => dynWeight g w h v u) (tileCount g) dstT
          (fun u v => edgeCost_mono g.collisionMapWidth (staticBlocked g)
            (dynBlocked g w h)
            (fun s hs => dynBlocked_of_staticBlocked g w h s hw hh hs) v u)
          (tileCount g) srcT
        unfold distanceMatrix distTable at hdist
        unfold distTable
        rw [hdist] at hmono
        exact cleI_none_left hmono
      constructor
      · unfold findRFWPathT
        unfold distanceMatrix at hdist
        rw [if_neg heq, if_pos hdist]
      · unfold findAStarPathT
        rw [if_neg heq, if_pos hdyn]
  obtain ⟨h1, h2⟩ := hbest
  refine ⟨h1, h2, ?_, ?_⟩
  · unfold findBestPath
    rw [pixel_roundtrip, pixel_roundtrip, h1]
    rfl
  · unfold findReroutedPath
    rw [pixel_roundtrip, pixel_roundtrip, h2]
    rfl

/-- A 2×1 map whose right tile (1,0) is a permanent obstacle. -/
def cexGridC5 : Grid :=
  ⟨2, 1, fun tx ty => if tx = 1 ∧ ty = 0 then TileState.obstacle else TileState.free⟩

theorem claimC5_witness :
    findRFWPathT cexGridC5 0 1 = [] ∧
    findAStarPathT cexGridC5 0 1 32 32 = [] ∧
    findBestPath cexGridC5 (tileNumToPixels cexGridC5 0) (tileNumToPixels cexGridC5 1) = [] ∧
    findReroutedPath cexGridC5 (tileNumToPixels cexGridC5 0)
      (tileNumToPixels cexGridC5 1) 32 32 = [] :=
  claimC5_unreachable cexGridC5 0 1 32 32 (by norm_num) (by norm_num)
    (Or.inl (by decide))

theorem extractB_spec (W : Nat → Nat → Option Cost) (n dst : Nat) :
    ∀ k c v, (viIter (fun a b => W b a) n dst k).getD c none = some v →
      (extractB W n dst k c).head? = some c ∧
      pathCost W (extractB W n dst k c) = some v := by
  intro k
  induction k with
  | zero =>
    intro c v hv
    rw [show viIter (fun a b => W b a) n dst 0 = viInit n dst from rfl, viInit_getD] at hv
    by_cases hcn : c < n
    · rw [if_pos hcn] at hv
      by_cases hcd : c = dst
      · rw [if_pos hcd] at hv
        have hv0 : v = ⟨0, 0⟩ := (Option.some.inj hv).symm
        subst hv0
        exact ⟨rfl, rfl⟩
      · rw [if_neg hcd] at hv
        cases hv
    · rw [if_neg hcn] at hv
      cases hv
  | succ k ih =>
    intro c v hv
    by_cases hsame : (viIter (fun a b => W b a) n dst k).getD c none =
        (viIter (fun a b => W b a) n dst (k + 1)).getD c none
    · have heq : extractB W n dst (k + 1) c = extractB W n dst k c := by
        conv_lhs => rw [extractB]
        rw [if_pos hsame]
      rw [heq]
      exact ih c v (by rw [hsame]; exact hv)
    · have hcn : c < n := by
        by_contra hge
        rw [viIter_succ_getD, if_neg hge] at hv
        cases hv
      have hfold : List.foldl minI none
          ((List.range n).map fun u =>
            addI ((viIter (fun a b => W b a) n dst k).getD u none) (W c u)) = some v := by
        have hv' := hv
        rw [viIter_succ_getD, if_pos hcn] at hv'
        rcases minI_eq_or ((viIter (fun a b => W b a) n dst k).getD c none)
            (List.foldl minI none
              ((List.range n).map fun u =>
                addI ((viIter (fun a b => W b a) n dst k).getD u none)
                  ((fun a b => W b a) u c))) with hmin | hmin
        · exfalso
          apply hsame
          rw [hv, ← hv', hmin]
        · rw [hmin] at hv'
          exact hv'
      have hexists : ∃ u ∈ List.range n,
          (fun u => decide (addI ((viIter (fun a b => W b a) n dst k).getD u none) (W c u) =
            (viIter (fun a b => W b a) n dst (k + 1)).getD c none)) u = true := by
        rcases foldl_minI_mem ((List.range n).map fun u =>
            addI ((viIter (fun a b => W b a) n dst k).getD u none) (W c u)) none with
          hmem | hmem
        · rw [hfold] at hmem
          cases hmem
        · rw [hfold] at hmem
          rcases List.mem_map.mp hmem with ⟨u, hu, hfu⟩
          exact ⟨u, hu, decide_eq_true (by rw [hfu, hv])⟩
      obtain ⟨u1, hfind⟩ : ∃ u1, (List.range n).find? (fun u =>
          decide (addI ((viIter (fun a b => W b a) n dst k).getD u none) (W c u) =
            (viIter (fun a b => W b a) n dst (k + 1)).getD c none)) = some u1 := by
        rcases hexists with ⟨u0, hu0, hp0⟩
        exact Option.isSome_iff_exists.mp (List.find?_isSome.mpr ⟨u0, hu0, hp0⟩)
      have hp1 := List.find?_some hfind
      simp only [decide_eq_true_eq] at hp1
      rw [hv] at hp1
      obtain ⟨pu, hpu⟩ : ∃ pu, (viIter (fun a b => W b a) n dst k).getD u1 none = some pu := by
        cases hx : (viIter (fun a b => W b a) n dst k).getD u1 none with
        | none => rw [hx] at hp1; cases hw : W c u1 <;> rw [hw] at hp1 <;> cases hp1
        | some pu => exact ⟨pu, rfl⟩
      obtain ⟨wc, hwc⟩ : ∃ wc, W c u1 = some wc := by
        cases hx : W c u1 with
        | none => rw [hpu, hx] at hp1; cases hp1
        | some wc => exact ⟨wc, rfl⟩
      have hvsum : v = ⟨pu.i + wc.i, pu.r + wc.r⟩ := by
        rw [hpu, hwc] at hp1
        exact (Option.some.inj hp1).symm
      have hstep : extractB W n dst (k + 1) c = c :: extractB W n dst k u1 := by
        conv_lhs => rw [extractB]
        rw [if_neg hsame, hfind]
      obtain ⟨hhead, hcost⟩ := ih u1 pu hpu
      rw [hstep]
      refine ⟨rfl, ?_⟩
      cases hE : extractB W n dst k u1 with
      | nil => rw [hE] at hhead; cases hhead
      | cons x rest =>
        rw [hE] at hhead hcost
        have hx : x = u1 := Option.some.inj hhead
        rw [hx] at hcost ⊢
        show addI (W c u1) (pathCost W (u1 :: rest)) = some v
        rw [hwc, hcost, hvsum]
        show some (⟨wc.i + pu.i, wc.r + pu.r⟩ : Cost) = some ⟨pu.i + wc.i, pu.r + wc.r⟩
        rw [Nat.add_comm wc.i pu.i, Nat.add_comm wc.r pu.r]

theorem edgeCost_congr (gw gh : Nat) (b1 b2 : Nat → Bool) (hgw : 0 < gw)
    (hb : ∀ t, t < gw * gh → b1 t = b2 t) (t u : Nat)
    (ht : t < gw * gh) (hu : u < gw * gh) :
    edgeCost gw b1 t u = edgeCost gw b2 t u := by
  have hside : ∀ a b : Nat, a < gw * gh → b < gw * gh → a / gw * gw + b % gw < gw * gh := by
    intro a b ha hb'
    have h1 : a / gw < gh := (Nat.div_lt_iff_lt_mul hgw).mpr (by
      rw [Nat.mul_comm]
      exact ha)
    have h2 : b % gw < gw := Nat.mod_lt _ hgw
    have h3 : a / gw + 1 ≤ gh := h1
    calc a / gw * gw + b % gw < a / gw * gw + gw := by omega
      _ = (a / gw + 1) * gw := by ring
      _ ≤ gh * gw := Nat.mul_le_mul_right gw h3
      _ = gw * gh := Nat.mul_comm gh gw
  unfold edgeCost
  dsimp only
  rw [hb t ht, hb u hu, hb _ (hside t u ht hu), hb _ (hside u t hu ht)]

theorem singleTile_withinMap (g : Grid) (t : Nat) (ht : t < tileCount g)
    (hgw : 0 < g.collisionMapWidth) :
    withinMap g (tileNumToPixels g t) movementTileSize movementTileSize := by
  have h2 : t % g.collisionMapWidth < g.collisionMapWidth := Nat.mod_lt _ hgw
  have h3 : t / g.collisionMapWidth < g.collisionMapHeight :=
    (Nat.div_lt_iff_lt_mul hgw).mpr (by
      rw [Nat.mul_comm]
      exact ht)
  unfold withinMap tileNumToPixels movementTileSize
  dsimp only
  constructor
  · omega
  · omega

theorem dynBlocked_eq_static (g : Grid) (t : Nat) (ht : t < tileCount g)
    (hgw : 0 < g.collisionMapWidth)
    (hNoAct : ∀ tx ty id, g.collisionMap tx ty ≠ TileState.actor id) :
    dynBlocked g movementTileSize movementTileSize t = staticBlocked g t := by
  have hcov : ∀ tx ty,
      coveredTile (tileNumToPixels g t) movementTileSize movementTileSize tx ty ↔
        (tx = t % g.collisionMapWidth ∧ ty = t / g.collisionMapWidth) := by
    intro tx ty
    rw [coveredTile_iff_of_aligned (tileNumToPixels g t) movementTileSize
      movementTileSize tx ty (t % g.collisionMapWidth) (t / g.collisionMapWidth) 1 1
      (by unfold tileNumToPixels movementTileSize; dsimp only; ring)
      (by unfold tileNumToPixels movementTileSize; dsimp only; ring)
      (by unfold movementTileSize; ring)
      (by unfold movementTileSize; ring)
      Nat.one_pos Nat.one_pos]
    omega
  unfold dynBlocked staticBlocked
  cases hmap : g.collisionMap (t % g.collisionMapWidth) (t / g.collisionMapWidth) with
  | actor id => exact absurd hmap (hNoAct _ _ id)
  | free =>
    have hfree : isAreaFree g (tileNumToPixels g t) movementTileSize movementTileSize =
        true := by
      rw [isAreaFree_iff]
      refine ⟨singleTile_withinMap g t ht hgw, fun tx ty hc => ?_⟩
      obtain ⟨hx, hy⟩ := (hcov tx ty).mp hc
      rw [hx, hy, hmap]
    rw [hfree]
    rfl
  | obstacle =>
    have hocc : isAreaFree g (tileNumToPixels g t) movementTileSize movementTileSize =
        false := by
      apply isAreaFree_false_of_occupied g _ _ _ (t % g.collisionMapWidth)
        (t / g.collisionMapWidth)
      · exact (hcov _ _).mpr ⟨rfl, rfl⟩
      · rw [hmap]
        intro hcontra
        cases hcontra
    rw [hocc]
    rfl

/-- Claim C4: on a grid with no entities present, for distinct tiles i, j
with j statically reachable from i (the distance matrix is not the
INFINITY sentinel), the dynamic single-tile search returns a path whose
exact cost equals the precomputed static distance; in particular the
matrix value never exceeds the returned path's cost. -/
theorem claimC4_admissibility (g : Grid) (iT jT : Nat)
    (hne : iT ≠ jT) (hgw : 0 < g.collisionMapWidth)
    (hNoAct : ∀ tx ty id, g.collisionMap tx ty ≠ TileState.actor id)
    (hreach : distanceMatrix g iT jT ≠ none) :
    ∃ c, distanceMatrix g iT jT = some c ∧
      pathCost (dynWeight g movementTileSize movementTileSize)
        (findAStarPathT g iT jT movementTileSize movementTileSize) = some c ∧
      cleI (distanceMatrix g iT jT)
        (pathCost (dynWeight g movementTileSize movementTileSize)
          (findAStarPathT g iT jT movementTileSize movementTileSize)) = true := by
  have hWeq : ∀ u v, u < tileCount g → v < tileCount g →
      staticWeight g u v = dynWeight g movementTileSize movementTileSize u v := by
    intro u v hu hv
    unfold staticWeight dynWeight
    exact edgeCost_congr g.collisionMapWidth g.collisionMapHeight (staticBlocked g)
      (dynBlocked g movementTileSize movementTileSize) hgw
      (fun s hs => (dynBlocked_eq_static g s hs hgw hNoAct).symm) u v hu hv
  have htable : distTable (staticWeight g) (tileCount g) jT =
      distTable (dynWeight g movementTileSize movementTileSize) (tileCount g) jT := by
    unfold distTable
    exact viIter_congr _ _ (tileCount g) jT
      (fun u v hu hv => hWeq v u hv hu) (tileCount g)
  obtain ⟨c, hc⟩ : ∃ c, distanceMatrix g iT jT = some c :=
    Option.ne_none_iff_exists'.mp hreach
  have hdyn : (distTable (dynWeight g movementTileSize movementTileSize)
      (tileCount g) jT).getD iT none = some c := by
    rw [← htable]
    exact hc
  have hext := extractB_spec (dynWeight g movementTileSize movementTileSize)
    (tileCount g) jT (tileCount g) iT c hdyn
  have hpath : findAStarPathT g iT jT movementTileSize movementTileSize =
      extractB (dynWeight g movementTileSize movementTileSize) (tileCount g) jT
        (tileCount g) iT := by
    unfold findAStarPathT
    rw [if_neg hne, if_neg (by
      rw [hdyn]
      intro hcontra
      cases hcontra)]
  refine ⟨c, hc, ?_, ?_⟩
  · rw [hpath]
    exact hext.2
  · rw [hc, hpath, hext.2]
    exact cleI_refl _

/-- A 2×1 map with both tiles free. -/
def cexGridFree2 : Grid := ⟨2, 1, fun _ _ => TileState.free⟩

theorem claimC4_witness :
    ∃ c, distanceMatrix cexGridFree2 0 1 = some c ∧
      pathCost (dynWeight cexGridFree2 movementTileSize movementTileSize)
        (findAStarPathT cexGridFree2 0 1 movementTileSize movementTileSize) = some c ∧
      cleI (distanceMatrix cexGridFree2 0 1)
        (pathCost (dynWeight cexGridFree2 movementTileSize movementTileSize)
          (findAStarPathT cexGridFree2 0 1 movementTileSize movementTileSize)) = true :=
  claimC4_admissibility cexGridFree2 0 1 (by norm_num) (by decide)
    (fun tx ty id h => TileState.noConfusion h) (by decide)

/-- The 5×5 example map of the spec with tile (2,2) permanently blocked. -/
def exampleGrid5 : Grid :=
  ⟨5, 5, fun tx ty => if tx = 2 ∧ ty = 2 then TileState.obstacle else TileState.free⟩

/-- Claim C8: on the 5×5 map with (2,2) blocked, findBestPath from tile
(0,2) (tile number 10, pixel (0,64)) to tile (4,2) (tile number 14, pixel
(128,64)) returns the 5-waypoint detour (0,2),(1,1),(2,1),(3,1),(4,2):
it has length 5, passes through row 1 (tile (2,1)) — avoiding the blocked
tile (2,2) — and its exact cost is 2 + 2·√2 = 4 + 2·(√2 − 1). -/
theorem claimC8_example :
    findRFWPathT exampleGrid5 10 14 = [10, 6, 7, 8, 14] ∧
    findBestPath exampleGrid5 ⟨0, 64⟩ ⟨128, 64⟩ =
      ([10, 6, 7, 8, 14].map (tileNumToPixels exampleGrid5)) ∧
    ([10, 6, 7, 8, 14] : List Nat).length = 5 ∧
    pathCost (staticWeight exampleGrid5) [10, 6, 7, 8, 14] = some ⟨2, 2⟩ ∧
    (7 ∈ ([10, 6, 7, 8, 14] : List Nat) ∨ 17 ∈ ([10, 6, 7, 8, 14] : List Nat)) ∧
    (12 ∉ ([10, 6, 7, 8, 14] : List Nat)) ∧
    ((2 : ℝ) + 2 * Real.sqrt 2 = 4 + 2 * (Real.sqrt 2 - 1)) := by
  have h1 : findRFWPathT exampleGrid5 10 14 = [10, 6, 7, 8, 14] := by decide
  refine ⟨h1, ?_, rfl, by decide, by decide, by decide, by ring⟩
  unfold findBestPath
  rw [show pixelsToTileNum exampleGrid5 ⟨0, 64⟩ = 10 from rfl,
    show pixelsToTileNum exampleGrid5 ⟨128, 64⟩ = 14 from rfl, h1]
